import Mathlib

/-!
Shallow embedding of `src/generative/networks/nets/patchgan_discriminator.py`
(classes `MultiScaleDiscriminator` and `NLayerDiscriminator`).

The embedding tracks everything the specification's claims talk about: the
construction-time configuration checks, the layer stack each sub-discriminator
builds (channel counts, kernel sizes, strides, paddings), and the shapes and
list structure produced by the forward passes.  Tensor values are delegated to
the underlying library primitives (MONAI `Convolution`), so a tensor is
embedded as its shape; activation, normalisation, bias and dropout parameters
do not influence shapes, error behaviour, or output-list structure and are
therefore not carried by the embedding.
-/

namespace PatchGAN

/-- Shape of a tensor `(batch, channels, *spatial)` as handled by the
discriminators; spatial extents are one entry per spatial dimension. -/
structure Tensor where
  batch : Nat
  channels : Nat
  spatial : List Nat
deriving DecidableEq

/-- The shape-relevant parameters of one MONAI `Convolution` block as
instantiated by `NLayerDiscriminator.__init__`.  The same kernel size, stride
and padding are applied along every spatial dimension (the source passes an
int kernel size and a uniform padding tuple). -/
structure Conv where
  inChannels : Nat
  outChannels : Nat
  kernelSize : Nat
  stride : Nat
  padding : Nat
deriving DecidableEq

/-- Output spatial size of a convolution along one dimension (the PyTorch
formula with dilation 1): `floor((s + 2 * padding - kernelSize) / stride) + 1`.
PyTorch raises when the real-valued formula is not positive; natural-number
truncated subtraction never reaches that regime in the statements below. -/
def Conv.outSize (c : Conv) (s : Nat) : Nat :=
  (s + 2 * c.padding - c.kernelSize) / c.stride + 1

/-- Applying one convolution block to a tensor: channels become the block's
output channels, each spatial extent is mapped through `Conv.outSize`. -/
def Conv.apply (c : Conv) (t : Tensor) : Tensor :=
  ⟨t.batch, c.outChannels, t.spatial.map c.outSize⟩

/-- Construction-time failures of the discriminators.  The Python code raises
`AssertionError` with a message interpolating the offending data; the
embedding carries that identifying data as fields.
`imageTooSmall index_D n_layers` is the source's "Your image size is too small
to take in up to %d discriminators with n_layers = %d" (lines 159-163);
`layerCountMismatch expected actual` is the count-mismatch failure of the
per-scale layer-count sequence mode (see `mkMultiScaleDiscriminatorSeq`). -/
inductive DiscError where
  | imageTooSmall (index_D : Nat) (n_layers : Nat)
  | layerCountMismatch (expected : Nat) (actual : Nat)
deriving DecidableEq

/-- The layer-construction loop of `NLayerDiscriminator.__init__` (source
lines 165-183): starting from `input_channels = in_channels` and
`output_channels = n_channels * 2`, each iteration appends a stride-2
convolution block and then doubles the channel width.  Returns the built
blocks together with the carried `input_channels` value, which the source
feeds to the terminal convolution. -/
def convLayers (kernel_size padding : Nat) : Nat → Nat → Nat → List Conv × Nat
  | 0, input_channels, _ => ([], input_channels)
  | n + 1, input_channels, output_channels =>
    let rest := convLayers kernel_size padding n output_channels (output_channels * 2)
    (⟨input_channels, output_channels, kernel_size, 2, padding⟩ :: rest.1, rest.2)

/-- One sub-discriminator: its effective layer count (`self.n_layers_D`), its
downsampling convolution blocks, and the terminal `final_conv` block. -/
structure NLayerDiscriminator where
  n_layers_D : Nat
  layers : List Conv
  final_conv : Conv
deriving DecidableEq

/-- `NLayerDiscriminator.__init__` (source lines 155-197) after the effective
layer count `n_layers_D * (index_D + 1)` has been computed.  The size check
`float(minimum_size_im) / 2 ** n < 1` (line 158) is embedded as
`minimum_size_im < 2 ^ n`; the two agree exactly for every
`minimum_size_im < 2^53`, since IEEE-double division by a power of two is
exact.  As in the source, the check precedes the construction of any layer.
The terminal convolution uses kernel size 1, stride 1 and (per the MONAI
default `same` padding for kernel 1) padding 0. -/
def mkNLayerDiscriminatorCore (n index_D spatial_dims n_channels in_channels out_channels kernel_size padding minimum_size_im : Nat) : Except DiscError NLayerDiscriminator :=
  if minimum_size_im < 2 ^ n then
    .error (.imageTooSmall index_D n)
  else
    let built := convLayers kernel_size padding n in_channels (n_channels * 2)
    .ok ⟨n, built.1, ⟨built.2, out_channels, 1, 1, 0⟩⟩

/-- `NLayerDiscriminator.__init__` (source lines 119-197): the effective layer
count is `n_layers_D * (index_D + 1)` (line 156).  `spatial_dims` only fixes
how many spatial dimensions the (uniform) kernel/stride/padding act on and is
otherwise inert in the embedding. -/
def mkNLayerDiscriminator (n_layers_D spatial_dims n_channels in_channels out_channels kernel_size padding index_D minimum_size_im : Nat) : Except DiscError NLayerDiscriminator :=
  mkNLayerDiscriminatorCore (n_layers_D * (index_D + 1)) index_D spatial_dims n_channels in_channels out_channels kernel_size padding minimum_size_im

/-- The ordered children of a sub-discriminator module: the downsampling
blocks followed by the terminal block. -/
def NLayerDiscriminator.children (D : NLayerDiscriminator) : List Conv :=
  D.layers ++ [D.final_conv]

/-- The loop of `NLayerDiscriminator.forward` (source lines 211-214):
`out = [x]; for submodel in children: out.append(submodel(out[-1]))`.
This function returns `out[1:]`, one output per child in order. -/
def forwardAux (x : Tensor) : List Conv → List Tensor
  | [] => []
  | c :: cs => c.apply x :: forwardAux (c.apply x) cs

/-- `NLayerDiscriminator.forward` with `get_intermediate_features=True`:
returns `out[1:]` (source line 216). -/
def NLayerDiscriminator.forwardFeatures (D : NLayerDiscriminator) (x : Tensor) : List Tensor :=
  forwardAux x D.children

/-- `NLayerDiscriminator.forward` with `get_intermediate_features=False`:
returns `out[-1]` (source line 218), the terminal output. -/
def NLayerDiscriminator.forwardTerminal (D : NLayerDiscriminator) (x : Tensor) : Tensor :=
  (forwardAux x D.children).getLastD x

/-- The multi-scale discriminator: its configured `num_D` and its
sub-discriminators in ascending index order. -/
structure MultiScaleDiscriminator where
  num_D : Nat
  discs : List NLayerDiscriminator
deriving DecidableEq

/-- The loop `for i in range(num_D)` of `MultiScaleDiscriminator.__init__`
(source lines 69-85): builds sub-discriminators in ascending index order
starting from index `i`, propagating the first construction failure. -/
def mkSubDiscsFrom (mk : Nat → Except DiscError NLayerDiscriminator) : Nat → Nat → Except DiscError (List NLayerDiscriminator)
  | _, 0 => .ok []
  | i, cnt + 1 =>
    match mk i with
    | .error e => .error e
    | .ok d =>
      match mkSubDiscsFrom mk (i + 1) cnt with
      | .error e => .error e
      | .ok ds => .ok (d :: ds)

/-- `MultiScaleDiscriminator.__init__` (source lines 28-85): computes the
padding `int((kernel_size - 1) / 2)` and builds one `NLayerDiscriminator` per
index `0 .. num_D - 1`, passing that index as `index_D`. -/
def mkMultiScaleDiscriminator (num_D n_layers_D spatial_dims n_channels in_channels out_channels kernel_size minimum_size_im : Nat) : Except DiscError MultiScaleDiscriminator :=
  match mkSubDiscsFrom (fun i => mkNLayerDiscriminator n_layers_D spatial_dims n_channels in_channels out_channels kernel_size ((kernel_size - 1) / 2) i minimum_size_im) 0 num_D with
  | .error e => .error e
  | .ok ds => .ok ⟨num_D, ds⟩

/-- `MultiScaleDiscriminator.forward` with `get_intermediate_features=False`
(source lines 101-115): collects each sub-discriminator's terminal output,
applying every sub-discriminator to the same input tensor. -/
def MultiScaleDiscriminator.forwardTerminals (M : MultiScaleDiscriminator) (x : Tensor) : List Tensor :=
  M.discs.map fun D => D.forwardTerminal x

/-- `MultiScaleDiscriminator.forward` with `get_intermediate_features=True`
(source lines 101-115): for each sub-discriminator `out_D = D(i, True)`, the
first component collects `out_D[-1]` and the second collects `out_D[:-1]`,
both in ascending index order, every call receiving the same input tensor. -/
def MultiScaleDiscriminator.forwardWithFeatures (M : MultiScaleDiscriminator) (x : Tensor) : List Tensor × List (List Tensor) :=
  (M.discs.map fun D => (D.forwardFeatures x).getLastD x,
   M.discs.map fun D => (D.forwardFeatures x).dropLast)

/-- The per-scale build loop of the sequence mode: one sub-discriminator per
entry of the layer-count list, entry `n` at index `i` built with effective
layer count `n` (see `mkMultiScaleDiscriminatorSeq`). -/
def mkSubDiscsSeq (mk : Nat → Nat → Except DiscError NLayerDiscriminator) : List Nat → Nat → Except DiscError (List NLayerDiscriminator)
  | [], _ => .ok []
  | n :: rest, i =>
    match mk n i with
    | .error e => .error e
    | .ok d =>
      match mkSubDiscsSeq mk rest (i + 1) with
      | .error e => .error e
      | .ok ds => .ok (d :: ds)

/-- Modelled from the spec: the explicit per-scale layer-count sequence mode
of the multi-scale discriminator constructor.  This mode belongs to the
repository class `MultiScalePatchDiscriminator`, which is exercised by
`src/tests/test_patch_gan.py` but whose implementation is not under `src/`
(the file under `src/` only contains the uniform-integer constructor).  Per
the spec (sections 3, 4.2 and 7): when an explicit ordered per-scale
layer-count sequence is supplied and its length differs from `num_D`,
construction fails immediately — before any sub-discriminator is built — with
a descriptive error identifying the expected and actual counts; when the
length equals `num_D`, sub-discriminator `i` is built with the `i`-th entry
of the sequence as its effective layer count (no index multiplier). -/
def mkMultiScaleDiscriminatorSeq (num_D : Nat) (layerCounts : List Nat) (spatial_dims n_channels in_channels out_channels kernel_size minimum_size_im : Nat) : Except DiscError MultiScaleDiscriminator :=
  if layerCounts.length = num_D then
    match mkSubDiscsSeq (fun n i => mkNLayerDiscriminatorCore n i spatial_dims n_channels in_channels out_channels kernel_size ((kernel_size - 1) / 2) minimum_size_im) layerCounts 0 with
    | .error e => .error e
    | .ok ds => .ok ⟨num_D, ds⟩
  else .error (.layerCountMismatch num_D layerCounts.length)

/-- Helper for closed evaluations: the effective layer counts of a
construction result. -/
def effCountsOf (e : Except DiscError MultiScaleDiscriminator) : Option (List Nat) :=
  e.toOption.map fun M => M.discs.map NLayerDiscriminator.n_layers_D

/-- Helper for closed evaluations: the terminal outputs of a construction
result on an input. -/
def terminalsOf (e : Except DiscError MultiScaleDiscriminator) (x : Tensor) : Option (List Tensor) :=
  e.toOption.map fun M => M.forwardTerminals x

/-- Helper for closed evaluations: the lengths of the intermediate-feature
sequences of a construction result on an input. -/
def featureLengthsOf (e : Except DiscError MultiScaleDiscriminator) (x : Tensor) : Option (List Nat) :=
  e.toOption.map fun M => (M.forwardWithFeatures x).2.map List.length

/-- The per-dimension spatial effect of one downsampling block as built by the
source: kernel `k`, stride 2 and padding `(k - 1) / 2` map a spatial extent
`s` to `(s + 2 * ((k - 1) / 2) - k) / 2 + 1`. -/
def downStep (ks : Nat) (s : Nat) : Nat :=
  (s + 2 * ((ks - 1) / 2) - ks) / 2 + 1

/-- A concrete sub-discriminator used to instantiate universally quantified
theorems: `NLayerDiscriminator(n_layers_D=1, spatial_dims=2, n_channels=1,
in_channels=1, out_channels=1, kernel_size=3, padding=1, index_D=0,
minimum_size_im=256)`. -/
def Dw0 : NLayerDiscriminator :=
  (mkNLayerDiscriminator 1 2 1 1 1 3 1 0 256).toOption.getD ⟨0, [], ⟨0, 0, 0, 0, 0⟩⟩

/-- A concrete multi-scale discriminator used to instantiate universally
quantified theorems: `MultiScaleDiscriminator(num_D=2, n_layers_D=1,
spatial_dims=2, n_channels=1, in_channels=1, out_channels=1, kernel_size=3,
minimum_size_im=256)`. -/
def Mw : MultiScaleDiscriminator :=
  (mkMultiScaleDiscriminator 2 1 2 1 1 1 3 256).toOption.getD ⟨0, []⟩

/-- A concrete sequence-mode multi-scale discriminator (per-scale layer counts
`[3, 4, 5]`, `num_D = 3`, matching the repository test `TEST_LAYER_LIST`). -/
def MwSeq : MultiScaleDiscriminator :=
  (mkMultiScaleDiscriminatorSeq 3 [3, 4, 5] 2 8 3 1 3 256).toOption.getD ⟨0, []⟩

/-! Structural lemmas about the embedding. -/

theorem convLayers_length (k p : Nat) : ∀ n a b, (convLayers k p n a b).1.length = n := by
  intro n
  induction n with
  | zero => intro a b; rfl
  | succ n ih => intro a b; simpa [convLayers] using ih b (b * 2)

theorem convLayers_get (k p : Nat) :
    ∀ n a b l, l < n →
      (convLayers k p n a b).1[l]? =
        some ⟨if l = 0 then a else b * 2 ^ (l - 1), b * 2 ^ l, k, 2, p⟩ := by
  intro n
  induction n with
  | zero => intro a b l hl; omega
  | succ n ih =>
    intro a b l hl
    cases l with
    | zero => simp [convLayers]
    | succ l =>
      have hln : l < n := by omega
      have := ih b (b * 2) l hln
      simp only [convLayers, List.getElem?_cons_succ, this]
      cases l with
      | zero => simp
      | succ m =>
        have h1 : b * 2 * 2 ^ m = b * 2 ^ (m + 1) := by ring
        have h2 : b * 2 * 2 ^ (m + 1) = b * 2 ^ (m + 1 + 1) := by ring
        simp [h1, h2]

theorem convLayers_snd (k p : Nat) :
    ∀ n a b, (convLayers k p n a b).2 = if n = 0 then a else b * 2 ^ (n - 1) := by
  intro n
  induction n with
  | zero => intro a b; rfl
  | succ n ih =>
    intro a b
    have := ih b (b * 2)
    simp only [convLayers, this]
    cases n with
    | zero => simp
    | succ m =>
      have h1 : b * 2 * 2 ^ m = b * 2 ^ (m + 1) := by ring
      simp [h1]

theorem forwardAux_length (cs : List Conv) : ∀ x : Tensor, (forwardAux x cs).length = cs.length := by
  induction cs with
  | nil => intro x; rfl
  | cons c cs ih => intro x; simp [forwardAux, ih]

theorem forwardAux_append (cs : List Conv) :
    ∀ (x : Tensor) (ds : List Conv),
      forwardAux x (cs ++ ds) =
        forwardAux x cs ++ forwardAux ((forwardAux x cs).getLastD x) ds := by
  induction cs with
  | nil => intro x ds; rfl
  | cons c cs ih =>
    intro x ds
    simp only [List.cons_append, forwardAux, List.getLastD_cons, List.append_eq]
    rw [ih (c.apply x) ds]

theorem mkNLayerDiscriminatorCore_ok
    (n index_D spatial_dims n_channels in_channels out_channels kernel_size padding minimum_size_im : Nat)
    (D : NLayerDiscriminator)
    (h : mkNLayerDiscriminatorCore n index_D spatial_dims n_channels in_channels out_channels kernel_size padding minimum_size_im = .ok D) :
    2 ^ n ≤ minimum_size_im ∧
      D = ⟨n, (convLayers kernel_size padding n in_channels (n_channels * 2)).1,
            ⟨(convLayers kernel_size padding n in_channels (n_channels * 2)).2, out_channels, 1, 1, 0⟩⟩ := by
  by_cases hlt : minimum_size_im < 2 ^ n
  · simp [mkNLayerDiscriminatorCore, hlt] at h
  · simp only [mkNLayerDiscriminatorCore, if_neg hlt, Except.ok.injEq] at h
    exact ⟨Nat.le_of_not_lt hlt, h.symm⟩

theorem mkSubDiscsFrom_ok (mk : Nat → Except DiscError NLayerDiscriminator) :
    ∀ (cnt i : Nat) (ds : List NLayerDiscriminator), mkSubDiscsFrom mk i cnt = .ok ds →
      ds.length = cnt ∧ ∀ j, j < cnt → ds[j]? = (mk (i + j)).toOption := by
  intro cnt
  induction cnt with
  | zero =>
    intro i ds h
    simp only [mkSubDiscsFrom, Except.ok.injEq] at h
    subst h
    exact ⟨rfl, by omega⟩
  | succ cnt ih =>
    intro i ds h
    simp only [mkSubDiscsFrom] at h
    cases hmk : mk i with
    | error e => rw [hmk] at h; exact absurd h (by simp)
    | ok d =>
      rw [hmk] at h
      cases hrest : mkSubDiscsFrom mk (i + 1) cnt with
      | error e => rw [hrest] at h; exact absurd h (by simp)
      | ok ds' =>
        rw [hrest] at h
        simp only [Except.ok.injEq] at h
        subst h
        obtain ⟨hlen, hget⟩ := ih (i + 1) ds' hrest
        refine ⟨by simp [hlen], ?_⟩
        intro j hj
        cases j with
        | zero => simp [hmk, Except.toOption]
        | succ j =>
          have hj' : j < cnt := by omega
          have hidx : i + (j + 1) = (i + 1) + j := by omega
          rw [hidx]
          simpa using hget j hj'

theorem mkSubDiscsFrom_total (mk : Nat → Except DiscError NLayerDiscriminator) :
    ∀ (cnt i : Nat), (∀ j, j < cnt → ∃ d, mk (i + j) = .ok d) →
      ∃ ds, mkSubDiscsFrom mk i cnt = .ok ds := by
  intro cnt
  induction cnt with
  | zero => intro i _; exact ⟨[], rfl⟩
  | succ cnt ih =>
    intro i hall
    obtain ⟨d, hd⟩ := hall 0 (by omega)
    obtain ⟨ds, hds⟩ := ih (i + 1) (by
      intro j hj
      have hidx : (i + 1) + j = i + (j + 1) := by omega
      rw [hidx]
      exact hall (j + 1) (by omega))
    refine ⟨d :: ds, ?_⟩
    simp only [mkSubDiscsFrom]
    rw [show mk i = .ok d from by simpa using hd, hds]

theorem mkMultiScaleDiscriminator_ok
    (num_D n_layers_D spatial_dims n_channels in_channels out_channels kernel_size minimum_size_im : Nat)
    (M : MultiScaleDiscriminator)
    (h : mkMultiScaleDiscriminator num_D n_layers_D spatial_dims n_channels in_channels out_channels kernel_size minimum_size_im = .ok M) :
    M.num_D = num_D ∧ M.discs.length = num_D ∧
      ∀ j, j < num_D →
        M.discs[j]? =
          (mkNLayerDiscriminator n_layers_D spatial_dims n_channels in_channels out_channels kernel_size ((kernel_size - 1) / 2) j minimum_size_im).toOption := by
  simp only [mkMultiScaleDiscriminator] at h
  cases hds : mkSubDiscsFrom (fun i => mkNLayerDiscriminator n_layers_D spatial_dims n_channels in_channels out_channels kernel_size ((kernel_size - 1) / 2) i minimum_size_im) 0 num_D with
  | error e => rw [hds] at h; exact absurd h (by simp)
  | ok ds =>
    rw [hds] at h
    simp only [Except.ok.injEq] at h
    subst h
    obtain ⟨hlen, hget⟩ := mkSubDiscsFrom_ok _ num_D 0 ds hds
    exact ⟨rfl, hlen, fun j hj => by simpa using hget j hj⟩

theorem mkSubDiscsSeq_ok (mk : Nat → Nat → Except DiscError NLayerDiscriminator) :
    ∀ (counts : List Nat) (i : Nat) (ds : List NLayerDiscriminator),
      mkSubDiscsSeq mk counts i = .ok ds →
      ds.length = counts.length ∧
        ∀ j, j < counts.length → ∃ n d, counts[j]? = some n ∧ ds[j]? = some d ∧ mk n (i + j) = .ok d := by
  intro counts
  induction counts with
  | nil =>
    intro i ds h
    simp only [mkSubDiscsSeq, Except.ok.injEq] at h
    subst h
    exact ⟨rfl, by simp⟩
  | cons n rest ih =>
    intro i ds h
    simp only [mkSubDiscsSeq] at h
    cases hmk : mk n i with
    | error e => rw [hmk] at h; exact absurd h (by simp)
    | ok d =>
      rw [hmk] at h
      cases hrest : mkSubDiscsSeq mk rest (i + 1) with
      | error e => rw [hrest] at h; exact absurd h (by simp)
      | ok ds' =>
        rw [hrest] at h
        simp only [Except.ok.injEq] at h
        subst h
        obtain ⟨hlen, hget⟩ := ih (i + 1) ds' hrest
        refine ⟨by simp [hlen], ?_⟩
        intro j hj
        cases j with
        | zero => exact ⟨n, d, by simp, by simp, by simpa using hmk⟩
        | succ j =>
          have hj' : j < rest.length := by simpa using hj
          obtain ⟨m, d', h1, h2, h3⟩ := hget j hj'
          have hidx : i + (j + 1) = (i + 1) + j := by omega
          exact ⟨m, d', by simpa using h1, by simpa using h2, by rw [hidx]; exact h3⟩

theorem mkNLayerDiscriminatorCore_min_indep
    (n index_D spatial_dims n_channels in_channels out_channels kernel_size padding m m' : Nat)
    (D D' : NLayerDiscriminator)
    (h : mkNLayerDiscriminatorCore n index_D spatial_dims n_channels in_channels out_channels kernel_size padding m = .ok D)
    (h' : mkNLayerDiscriminatorCore n index_D spatial_dims n_channels in_channels out_channels kernel_size padding m' = .ok D') :
    D = D' := by
  obtain ⟨-, hD⟩ := mkNLayerDiscriminatorCore_ok _ _ _ _ _ _ _ _ _ _ h
  obtain ⟨-, hD'⟩ := mkNLayerDiscriminatorCore_ok _ _ _ _ _ _ _ _ _ _ h'
  rw [hD, hD']

theorem forwardFeatures_eq (D : NLayerDiscriminator) (x : Tensor) :
    D.forwardFeatures x =
      forwardAux x D.layers ++ [D.final_conv.apply ((forwardAux x D.layers).getLastD x)] := by
  simp [NLayerDiscriminator.forwardFeatures, NLayerDiscriminator.children, forwardAux_append,
    forwardAux]

theorem forwardFeatures_dropLast (D : NLayerDiscriminator) (x : Tensor) :
    (D.forwardFeatures x).dropLast = forwardAux x D.layers := by
  rw [forwardFeatures_eq]
  simp

theorem forwardTerminal_eq (D : NLayerDiscriminator) (x : Tensor) :
    D.forwardTerminal x = D.final_conv.apply ((forwardAux x D.layers).getLastD x) := by
  have h := forwardFeatures_eq D x
  simp only [NLayerDiscriminator.forwardFeatures] at h
  simp [NLayerDiscriminator.forwardTerminal, h]

theorem forwardFeatures_getLastD (D : NLayerDiscriminator) (x : Tensor) :
    (D.forwardFeatures x).getLastD x = D.forwardTerminal x := rfl

theorem convLayers_mem (k p : Nat) :
    ∀ n a b, ∀ c ∈ (convLayers k p n a b).1, c.kernelSize = k ∧ c.stride = 2 ∧ c.padding = p := by
  intro n
  induction n with
  | zero => intro a b c hc; simp [convLayers] at hc
  | succ n ih =>
    intro a b c hc
    simp only [convLayers, List.mem_cons] at hc
    rcases hc with rfl | hc
    · exact ⟨rfl, rfl, rfl⟩
    · exact ih b (b * 2) c hc

theorem downStep_pos (ks s : Nat) : 1 ≤ downStep ks s :=
  Nat.succ_le_succ (Nat.zero_le _)

theorem downStep_iterate_pos (ks : Nat) : ∀ (n s : Nat), 1 ≤ s → 1 ≤ (downStep ks)^[n] s := by
  intro n
  induction n with
  | zero => intro s hs; simpa using hs
  | succ n ih =>
    intro s hs
    rw [Function.iterate_succ_apply]
    exact ih _ (downStep_pos ks s)

theorem downStep_even (ks m : Nat) (hk : 1 ≤ ks) (hm : 1 ≤ m) : downStep ks (2 * m) = m := by
  show (2 * m + 2 * ((ks - 1) / 2) - ks) / 2 + 1 = m
  omega

theorem downStep_iterate_div (ks : Nat) (hk : 1 ≤ ks) :
    ∀ (n m : Nat), 1 ≤ m → (downStep ks)^[n] (2 ^ n * m) = m := by
  intro n
  induction n with
  | zero => intro m hm; simp
  | succ n ih =>
    intro m hm
    have hpos : 1 ≤ 2 ^ n * m := Nat.one_le_iff_ne_zero.mpr (by positivity)
    have hsplit : 2 ^ (n + 1) * m = 2 * (2 ^ n * m) := by ring
    rw [Function.iterate_succ_apply, hsplit, downStep_even ks _ hk hpos]
    exact ih m hm

theorem forwardAux_last_spatial (ks : Nat) :
    ∀ (cs : List Conv),
      (∀ c ∈ cs, c.kernelSize = ks ∧ c.stride = 2 ∧ c.padding = (ks - 1) / 2) →
      ∀ x : Tensor,
        ((forwardAux x cs).getLastD x).spatial = x.spatial.map (downStep ks)^[cs.length] := by
  intro cs
  induction cs with
  | nil =>
    intro _ x
    simp [forwardAux]
  | cons c cs ih =>
    intro hall x
    obtain ⟨hck, hcs, hcp⟩ := hall c (List.mem_cons_self c cs)
    have hout : c.outSize = downStep ks := by
      funext s
      simp [Conv.outSize, downStep, hck, hcs, hcp]
    simp only [forwardAux, List.getLastD_cons]
    rw [ih (fun d hd => hall d (List.mem_cons_of_mem c hd)) (c.apply x)]
    simp only [Conv.apply, List.length_cons, List.map_map]
    rw [hout, ← Function.iterate_succ]

theorem final_outSize (a b s : Nat) (hs : 1 ≤ s) :
    Conv.outSize ⟨a, b, 1, 1, 0⟩ s = s := by
  show (s + 2 * 0 - 1) / 1 + 1 = s
  omega

/-! Claim theorems. -/

/-- C5: for every construction in uniform layer-count mode (a single integer
base layer count) and every scale index `i < num_D`, the effective layer
count of sub-discriminator `i` equals `n_layers_D * (i + 1)`. -/
theorem c5_uniform_layer_count
    (num_D n_layers_D spatial_dims n_channels in_channels out_channels kernel_size minimum_size_im : Nat)
    (M : MultiScaleDiscriminator)
    (h : mkMultiScaleDiscriminator num_D n_layers_D spatial_dims n_channels in_channels out_channels kernel_size minimum_size_im = .ok M)
    (i : Nat) (hi : i < num_D) :
    (M.discs[i]?).map NLayerDiscriminator.n_layers_D = some (n_layers_D * (i + 1)) := by
  obtain ⟨-, hlen, hget⟩ := mkMultiScaleDiscriminator_ok _ _ _ _ _ _ _ _ _ h
  have h2 : i < M.discs.length := by omega
  have h3 : M.discs[i]? = some M.discs[i] := List.getElem?_eq_getElem h2
  have h1 := hget i hi
  rw [h3] at h1
  cases hmk : mkNLayerDiscriminator n_layers_D spatial_dims n_channels in_channels out_channels kernel_size ((kernel_size - 1) / 2) i minimum_size_im with
  | error e => rw [hmk] at h1; simp [Except.toOption] at h1
  | ok d =>
    rw [hmk] at h1
    simp only [Except.toOption, Option.some.injEq] at h1
    simp only [mkNLayerDiscriminator] at hmk
    obtain ⟨-, hD⟩ := mkNLayerDiscriminatorCore_ok _ _ _ _ _ _ _ _ _ _ hmk
    rw [h3, h1, hD]
    rfl

/-- Witness for C5 at `num_D=2`, base layer count 1, scale index 1. -/
theorem c5_witness : (Mw.discs[1]?).map NLayerDiscriminator.n_layers_D = some (1 * (1 + 1)) :=
  c5_uniform_layer_count 2 1 2 1 1 1 3 256 Mw rfl 1 (by decide)

/-- C3: if `minimum_size_im / 2^(effective layer count)` falls below 1 the
sub-discriminator's construction fails, before any layer is built, with the
error carrying the offending scale index and its effective layer count; if
the quotient is at least 1 for every scale, the multi-scale construction
succeeds with no input-too-small error. -/
theorem c3_input_too_small
    (n_layers_D spatial_dims n_channels in_channels out_channels kernel_size padding minimum_size_im num_D : Nat) :
    (∀ i, minimum_size_im < 2 ^ (n_layers_D * (i + 1)) →
      mkNLayerDiscriminator n_layers_D spatial_dims n_channels in_channels out_channels kernel_size padding i minimum_size_im =
        .error (.imageTooSmall i (n_layers_D * (i + 1)))) ∧
    ((∀ i, i < num_D → 2 ^ (n_layers_D * (i + 1)) ≤ minimum_size_im) →
      ∃ M, mkMultiScaleDiscriminator num_D n_layers_D spatial_dims n_channels in_channels out_channels kernel_size minimum_size_im = .ok M) := by
  constructor
  · intro i hi
    simp [mkNLayerDiscriminator, mkNLayerDiscriminatorCore, hi]
  · intro hall
    obtain ⟨ds, hds⟩ := mkSubDiscsFrom_total
      (fun i => mkNLayerDiscriminator n_layers_D spatial_dims n_channels in_channels out_channels kernel_size ((kernel_size - 1) / 2) i minimum_size_im)
      num_D 0 (by
        intro j hj
        have hok : ¬ minimum_size_im < 2 ^ (n_layers_D * (0 + j + 1)) :=
          Nat.not_lt.mpr (by simpa using hall j hj)
        cases hmk : mkNLayerDiscriminator n_layers_D spatial_dims n_channels in_channels out_channels kernel_size ((kernel_size - 1) / 2) (0 + j) minimum_size_im with
        | ok d => exact ⟨d, hmk⟩
        | error e =>
          exfalso
          simp only [mkNLayerDiscriminator, mkNLayerDiscriminatorCore] at hmk
          rw [if_neg hok] at hmk
          exact absurd hmk (by simp))
    exact ⟨⟨num_D, ds⟩, by simp [mkMultiScaleDiscriminator, hds]⟩

/-- Witness for C3: the failing half at base count 6, scale 1 (the repository
test `TEST_TOO_SMALL_SIZE`), and the succeeding half at base count 3. -/
theorem c3_witness :
    mkNLayerDiscriminator 6 2 8 3 1 3 1 1 256 = .error (.imageTooSmall 1 12) ∧
    ∃ M, mkMultiScaleDiscriminator 2 3 2 8 3 1 3 256 = .ok M :=
  ⟨(c3_input_too_small 6 2 8 3 1 3 1 256 2).1 1 (by decide),
   (c3_input_too_small 3 2 8 3 1 3 1 256 2).2 (by intro i hi; interval_cases i <;> decide)⟩

/-- C9: for a constructed sub-discriminator, the full-sequence forward pass
returns the ordered per-layer outputs followed by the terminal output, of
length effective layer count + 1, and the terminal-only mode returns exactly
the last element of that sequence. -/
theorem c9_forward_modes
    (n_layers_D spatial_dims n_channels in_channels out_channels kernel_size padding index_D minimum_size_im : Nat)
    (D : NLayerDiscriminator)
    (h : mkNLayerDiscriminator n_layers_D spatial_dims n_channels in_channels out_channels kernel_size padding index_D minimum_size_im = .ok D)
    (x : Tensor) :
    (D.forwardFeatures x).length = D.n_layers_D + 1 ∧
    D.forwardFeatures x =
      forwardAux x D.layers ++ [D.final_conv.apply ((forwardAux x D.layers).getLastD x)] ∧
    D.forwardTerminal x = (D.forwardFeatures x).getLastD x := by
  simp only [mkNLayerDiscriminator] at h
  obtain ⟨-, hD⟩ := mkNLayerDiscriminatorCore_ok _ _ _ _ _ _ _ _ _ _ h
  refine ⟨?_, forwardFeatures_eq D x, (forwardFeatures_getLastD D x).symm⟩
  have hlay : D.layers.length = D.n_layers_D := by
    rw [hD]
    simpa using convLayers_length kernel_size padding (n_layers_D * (index_D + 1)) in_channels (n_channels * 2)
  simp [NLayerDiscriminator.forwardFeatures, NLayerDiscriminator.children, forwardAux_length, hlay]

/-- Witness for C9 at a concrete sub-discriminator and input. -/
theorem c9_witness :
    (Dw0.forwardFeatures ⟨1, 1, [6]⟩).length = Dw0.n_layers_D + 1 ∧
    Dw0.forwardFeatures ⟨1, 1, [6]⟩ =
      forwardAux ⟨1, 1, [6]⟩ Dw0.layers ++
        [Dw0.final_conv.apply ((forwardAux ⟨1, 1, [6]⟩ Dw0.layers).getLastD ⟨1, 1, [6]⟩)] ∧
    Dw0.forwardTerminal ⟨1, 1, [6]⟩ = (Dw0.forwardFeatures ⟨1, 1, [6]⟩).getLastD ⟨1, 1, [6]⟩ :=
  c9_forward_modes 1 2 1 1 1 3 1 0 256 Dw0 rfl ⟨1, 1, [6]⟩

/-- C8: channel progression of a constructed sub-discriminator: layer 0 maps
`in_channels` to `2 * n_channels` output channels; layer `l` outputs
`n_channels * 2^(l+1)` channels and consumes the previous layer's output
width; the terminal block has kernel size 1 and stride 1, maps to
`out_channels`, and consumes the last downsampling layer's output channels
(`in_channels` when the layer list is empty). -/
theorem c8_channel_progression
    (n_layers_D spatial_dims n_channels in_channels out_channels kernel_size padding index_D minimum_size_im : Nat)
    (D : NLayerDiscriminator)
    (h : mkNLayerDiscriminator n_layers_D spatial_dims n_channels in_channels out_channels kernel_size padding index_D minimum_size_im = .ok D) :
    (∀ l, l < D.layers.length →
      D.layers[l]? = some ⟨if l = 0 then in_channels else n_channels * 2 ^ l,
        n_channels * 2 ^ (l + 1), kernel_size, 2, padding⟩) ∧
    D.final_conv.kernelSize = 1 ∧ D.final_conv.stride = 1 ∧
    D.final_conv.outChannels = out_channels ∧
    (∀ c, D.layers.getLast? = some c → D.final_conv.inChannels = c.outChannels) ∧
    (D.layers = [] → D.final_conv.inChannels = in_channels) := by
  simp only [mkNLayerDiscriminator] at h
  obtain ⟨-, hD⟩ := mkNLayerDiscriminatorCore_ok _ _ _ _ _ _ _ _ _ _ h
  have hlay : D.layers = (convLayers kernel_size padding (n_layers_D * (index_D + 1)) in_channels (n_channels * 2)).1 := by
    rw [hD]
  have hfin : D.final_conv = ⟨(convLayers kernel_size padding (n_layers_D * (index_D + 1)) in_channels (n_channels * 2)).2, out_channels, 1, 1, 0⟩ := by
    rw [hD]
  refine ⟨?_, by rw [hfin], by rw [hfin], by rw [hfin], ?_, ?_⟩
  · intro l hl
    rw [hlay] at hl ⊢
    rw [convLayers_length] at hl
    rw [convLayers_get kernel_size padding _ in_channels (n_channels * 2) l hl]
    cases l with
    | zero => simp
    | succ m =>
      have h1 : n_channels * 2 * 2 ^ m = n_channels * 2 ^ (m + 1) := by ring
      have h2 : n_channels * 2 * 2 ^ (m + 1) = n_channels * 2 ^ (m + 1 + 1) := by ring
      simp [Conv.mk.injEq, h1, h2]
  · intro c hc
    rw [hlay] at hc
    have hne : (convLayers kernel_size padding (n_layers_D * (index_D + 1)) in_channels (n_channels * 2)).1 ≠ [] := by
      intro he
      rw [he] at hc
      simp at hc
    have hpos : 0 < n_layers_D * (index_D + 1) := by
      by_contra hz
      have h0 : n_layers_D * (index_D + 1) = 0 := by omega
      apply hne
      have := convLayers_length kernel_size padding (n_layers_D * (index_D + 1)) in_channels (n_channels * 2)
      rw [h0] at this ⊢
      exact List.length_eq_zero.mp this
    rw [List.getLast?_eq_getElem?] at hc
    rw [convLayers_length] at hc
    rw [convLayers_get kernel_size padding _ in_channels (n_channels * 2) _ (by omega)] at hc
    have hc2 : c = ⟨if n_layers_D * (index_D + 1) - 1 = 0 then in_channels
        else n_channels * 2 * 2 ^ (n_layers_D * (index_D + 1) - 1 - 1),
        n_channels * 2 * 2 ^ (n_layers_D * (index_D + 1) - 1), kernel_size, 2, padding⟩ := by
      exact (Option.some.injEq _ _ ▸ hc).symm
    rw [hfin, hc2]
    show (convLayers kernel_size padding (n_layers_D * (index_D + 1)) in_channels (n_channels * 2)).2 =
      n_channels * 2 * 2 ^ (n_layers_D * (index_D + 1) - 1)
    rw [convLayers_snd]
    simp [Nat.pos_iff_ne_zero.mp hpos]
  · intro hnil
    rw [hlay] at hnil
    have hz : n_layers_D * (index_D + 1) = 0 := by
      have := convLayers_length kernel_size padding (n_layers_D * (index_D + 1)) in_channels (n_channels * 2)
      rw [hnil] at this
      simpa using this.symm
    rw [hfin]
    show (convLayers kernel_size padding (n_layers_D * (index_D + 1)) in_channels (n_channels * 2)).2 = in_channels
    rw [convLayers_snd, if_pos hz]

/-- Witness for C8 at a concrete sub-discriminator. -/
theorem c8_witness :
    (∀ l, l < Dw0.layers.length →
      Dw0.layers[l]? = some ⟨if l = 0 then 1 else 1 * 2 ^ l, 1 * 2 ^ (l + 1), 3, 2, 1⟩) ∧
    Dw0.final_conv.kernelSize = 1 ∧ Dw0.final_conv.stride = 1 ∧
    Dw0.final_conv.outChannels = 1 ∧
    (∀ c, Dw0.layers.getLast? = some c → Dw0.final_conv.inChannels = c.outChannels) ∧
    (Dw0.layers = [] → Dw0.final_conv.inChannels = 1) :=
  c8_channel_progression 1 2 1 1 1 3 1 0 256 Dw0 rfl

/-- C6: when intermediate features are requested, the multi-scale forward
returns `num_D` feature sequences; the `i`-th one is exactly the outputs of
scale `i`'s downsampling layers — the terminal output is excluded — so its
length equals the effective layer count of scale `i`. -/
theorem c6_feature_sequences
    (num_D n_layers_D spatial_dims n_channels in_channels out_channels kernel_size minimum_size_im : Nat)
    (M : MultiScaleDiscriminator)
    (h : mkMultiScaleDiscriminator num_D n_layers_D spatial_dims n_channels in_channels out_channels kernel_size minimum_size_im = .ok M)
    (x : Tensor) :
    (M.forwardWithFeatures x).2.length = num_D ∧
    ∀ i, i < num_D →
      (M.forwardWithFeatures x).2[i]? = (M.discs[i]?).map (fun D => forwardAux x D.layers) ∧
      ((M.forwardWithFeatures x).2[i]?).map List.length =
        (M.discs[i]?).map NLayerDiscriminator.n_layers_D := by
  obtain ⟨-, hlen, hget⟩ := mkMultiScaleDiscriminator_ok _ _ _ _ _ _ _ _ _ h
  constructor
  · simp [MultiScaleDiscriminator.forwardWithFeatures, hlen]
  · intro i hi
    have h2 : i < M.discs.length := by omega
    have h3 : M.discs[i]? = some M.discs[i] := List.getElem?_eq_getElem h2
    have hfeat : (M.forwardWithFeatures x).2[i]? =
        some ((M.discs[i].forwardFeatures x).dropLast) := by
      simp [MultiScaleDiscriminator.forwardWithFeatures, List.getElem?_map, h3]
    constructor
    · rw [hfeat, h3]
      simp [forwardFeatures_dropLast]
    · rw [hfeat, h3]
      have h1 := hget i hi
      rw [h3] at h1
      cases hmk : mkNLayerDiscriminator n_layers_D spatial_dims n_channels in_channels out_channels kernel_size ((kernel_size - 1) / 2) i minimum_size_im with
      | error e => rw [hmk] at h1; simp [Except.toOption] at h1
      | ok d =>
        rw [hmk] at h1
        simp only [Except.toOption, Option.some.injEq] at h1
        simp only [mkNLayerDiscriminator] at hmk
        obtain ⟨-, hD⟩ := mkNLayerDiscriminatorCore_ok _ _ _ _ _ _ _ _ _ _ hmk
        rw [forwardFeatures_dropLast]
        simp [h1, hD, forwardAux_length, convLayers_length]

/-- Witness for C6 at a concrete configuration and input. -/
theorem c6_witness :
    (Mw.forwardWithFeatures ⟨1, 1, [8, 8]⟩).2.length = 2 ∧
    ((Mw.forwardWithFeatures ⟨1, 1, [8, 8]⟩).2[1]?).map List.length =
      (Mw.discs[1]?).map NLayerDiscriminator.n_layers_D :=
  ⟨(c6_feature_sequences 2 1 2 1 1 1 3 256 Mw rfl ⟨1, 1, [8, 8]⟩).1,
   ((c6_feature_sequences 2 1 2 1 1 1 3 256 Mw rfl ⟨1, 1, [8, 8]⟩).2 1 (by decide)).2⟩

/-- C7: the multi-scale forward dispatches the same, unmodified input tensor
to every sub-discriminator and returns exactly `num_D` terminal outputs in
ascending scale-index order (entry `i` is the output of the sub-discriminator
constructed with index `i`), identically in both forward modes. -/
theorem c7_dispatch_and_order
    (num_D n_layers_D spatial_dims n_channels in_channels out_channels kernel_size minimum_size_im : Nat)
    (M : MultiScaleDiscriminator)
    (h : mkMultiScaleDiscriminator num_D n_layers_D spatial_dims n_channels in_channels out_channels kernel_size minimum_size_im = .ok M)
    (x : Tensor) :
    (M.forwardTerminals x).length = num_D ∧
    (M.forwardWithFeatures x).1 = M.forwardTerminals x ∧
    ∀ i, i < num_D →
      (M.forwardTerminals x)[i]? = (M.discs[i]?).map (fun D => D.forwardTerminal x) ∧
      M.discs[i]? = (mkNLayerDiscriminator n_layers_D spatial_dims n_channels in_channels out_channels kernel_size ((kernel_size - 1) / 2) i minimum_size_im).toOption := by
  obtain ⟨-, hlen, hget⟩ := mkMultiScaleDiscriminator_ok _ _ _ _ _ _ _ _ _ h
  refine ⟨by simp [MultiScaleDiscriminator.forwardTerminals, hlen], rfl, ?_⟩
  intro i hi
  exact ⟨by simp [MultiScaleDiscriminator.forwardTerminals, List.getElem?_map], hget i hi⟩

/-- Witness for C7 at a concrete configuration and input. -/
theorem c7_witness :
    (Mw.forwardTerminals ⟨1, 1, [8, 8]⟩).length = 2 ∧
    (Mw.forwardTerminals ⟨1, 1, [8, 8]⟩)[0]? =
      (Mw.discs[0]?).map (fun D => D.forwardTerminal ⟨1, 1, [8, 8]⟩) :=
  ⟨(c7_dispatch_and_order 2 1 2 1 1 1 3 256 Mw rfl ⟨1, 1, [8, 8]⟩).1,
   ((c7_dispatch_and_order 2 1 2 1 1 1 3 256 Mw rfl ⟨1, 1, [8, 8]⟩).2.2 0 (by decide)).1⟩

/-- C10: `minimum_size_im` is consulted only by the construction-time check —
two successful constructions differing only in `minimum_size_im` yield
identical discriminators — and the forward pass never compares the actual
input's spatial size against it: for every input tensor, including one with
spatial extents smaller than `minimum_size_im`, forward returns its full
output sequences with no error from this component. -/
theorem c10_no_runtime_size_check
    (num_D n_layers_D spatial_dims n_channels in_channels out_channels kernel_size minimum_size_im minimum_size_im2 : Nat)
    (M M2 : MultiScaleDiscriminator)
    (h : mkMultiScaleDiscriminator num_D n_layers_D spatial_dims n_channels in_channels out_channels kernel_size minimum_size_im = .ok M)
    (h2 : mkMultiScaleDiscriminator num_D n_layers_D spatial_dims n_channels in_channels out_channels kernel_size minimum_size_im2 = .ok M2) :
    M = M2 ∧
    ∀ x : Tensor,
      (M.forwardTerminals x).length = num_D ∧ (M.forwardWithFeatures x).2.length = num_D := by
  obtain ⟨ha, hlen, hget⟩ := mkMultiScaleDiscriminator_ok _ _ _ _ _ _ _ _ _ h
  obtain ⟨ha2, hlen2, hget2⟩ := mkMultiScaleDiscriminator_ok _ _ _ _ _ _ _ _ _ h2
  have hdiscs : M.discs = M2.discs := by
    apply List.ext_getElem?
    intro j
    by_cases hj : j < num_D
    · have e1 := hget j hj
      have e2 := hget2 j hj
      have hs1 : M.discs[j]? = some M.discs[j] := List.getElem?_eq_getElem (by omega)
      have hs2 : M2.discs[j]? = some M2.discs[j] := List.getElem?_eq_getElem (by omega)
      rw [e1, e2]
      cases hmk : mkNLayerDiscriminator n_layers_D spatial_dims n_channels in_channels out_channels kernel_size ((kernel_size - 1) / 2) j minimum_size_im with
      | error e => rw [hmk] at e1; rw [e1] at hs1; simp [Except.toOption] at hs1
      | ok d =>
        cases hmk2 : mkNLayerDiscriminator n_layers_D spatial_dims n_channels in_channels out_channels kernel_size ((kernel_size - 1) / 2) j minimum_size_im2 with
        | error e => rw [hmk2] at e2; rw [e2] at hs2; simp [Except.toOption] at hs2
        | ok d2 =>
          simp only [mkNLayerDiscriminator] at hmk hmk2
          rw [mkNLayerDiscriminatorCore_min_indep _ _ _ _ _ _ _ _ _ _ _ _ hmk hmk2]
    · have hj1 : M.discs.length ≤ j := by omega
      have hj2 : M2.discs.length ≤ j := by omega
      rw [List.getElem?_eq_none hj1, List.getElem?_eq_none hj2]
  refine ⟨?_, ?_⟩
  · cases M with
    | mk a l =>
      cases M2 with
      | mk a2 l2 =>
        simp only at ha ha2 hdiscs
        rw [ha, ha2, hdiscs]
  · intro x
    constructor
    · simp [MultiScaleDiscriminator.forwardTerminals, hlen]
    · simp [MultiScaleDiscriminator.forwardWithFeatures, hlen]

/-- Witness for C10: the same configuration constructed with
`minimum_size_im = 256` and `minimum_size_im = 4` yields the same network,
and its forward accepts an input of spatial size 2 (smaller than both). -/
theorem c10_witness :
    Mw = Mw ∧
    (Mw.forwardTerminals ⟨1, 1, [2, 2]⟩).length = 2 ∧
    (Mw.forwardWithFeatures ⟨1, 1, [2, 2]⟩).2.length = 2 :=
  ⟨(c10_no_runtime_size_check 2 1 2 1 1 1 3 256 4 Mw Mw rfl rfl).1,
   (c10_no_runtime_size_check 2 1 2 1 1 1 3 256 4 Mw Mw rfl rfl).2 ⟨1, 1, [2, 2]⟩⟩

/-- C4 (amended): every non-terminal layer of a constructed sub-discriminator
is a stride-2 convolution; with the source's padding `(k - 1) / 2`, each layer
maps every spatial extent `s` to `(s + 2 * ((k - 1) / 2) - k) / 2 + 1`, so the
terminal output's spatial shape is the `n_layers_D`-fold iterate of that map —
which agrees with exact division by `2 ^ n_layers_D` whenever the extent is
divisible by it (the floor-division form of the claim fails on non-divisible
extents, see the counterexample). -/
theorem c4_downsampling
    (n_layers_D spatial_dims n_channels in_channels out_channels kernel_size index_D minimum_size_im : Nat)
    (D : NLayerDiscriminator)
    (h : mkNLayerDiscriminator n_layers_D spatial_dims n_channels in_channels out_channels kernel_size ((kernel_size - 1) / 2) index_D minimum_size_im = .ok D)
    (hk : 1 ≤ kernel_size) (x : Tensor) (hx : ∀ s ∈ x.spatial, 1 ≤ s) :
    (∀ c ∈ D.layers, c.stride = 2) ∧
    (D.forwardTerminal x).spatial = x.spatial.map (downStep kernel_size)^[D.n_layers_D] ∧
    (∀ s m : Nat, 1 ≤ m → s = 2 ^ D.n_layers_D * m →
      (downStep kernel_size)^[D.n_layers_D] s = m) := by
  simp only [mkNLayerDiscriminator] at h
  obtain ⟨-, hD⟩ := mkNLayerDiscriminatorCore_ok _ _ _ _ _ _ _ _ _ _ h
  have hlay : D.layers = (convLayers kernel_size ((kernel_size - 1) / 2) (n_layers_D * (index_D + 1)) in_channels (n_channels * 2)).1 := by
    rw [hD]
  have hfin : D.final_conv = ⟨(convLayers kernel_size ((kernel_size - 1) / 2) (n_layers_D * (index_D + 1)) in_channels (n_channels * 2)).2, out_channels, 1, 1, 0⟩ := by
    rw [hD]
  have hnl : D.n_layers_D = n_layers_D * (index_D + 1) := by rw [hD]
  have hmem : ∀ c ∈ D.layers,
      c.kernelSize = kernel_size ∧ c.stride = 2 ∧ c.padding = (kernel_size - 1) / 2 := by
    rw [hlay]; exact convLayers_mem _ _ _ _ _
  refine ⟨fun c hc => (hmem c hc).2.1, ?_, ?_⟩
  · rw [forwardTerminal_eq]
    have hy := forwardAux_last_spatial kernel_size D.layers hmem x
    have hlistlen : D.layers.length = D.n_layers_D := by
      rw [hlay, hnl]
      exact convLayers_length _ _ _ _ _
    rw [hlistlen] at hy
    rw [hfin]
    simp only [Conv.apply]
    rw [hy, List.map_map]
    refine List.map_congr_left ?_
    intro s hs
    simp only [Function.comp_apply]
    exact final_outSize _ _ _ (downStep_iterate_pos _ _ _ (hx s hs))
  · intro s m hm hs
    subst hs
    exact downStep_iterate_div _ hk _ _ hm

/-- Witness for C4 (amended) at a concrete sub-discriminator and input. -/
theorem c4_witness :
    (∀ c ∈ Dw0.layers, c.stride = 2) ∧
    (Dw0.forwardTerminal ⟨1, 1, [4]⟩).spatial =
      (Tensor.mk 1 1 [4]).spatial.map (downStep 3)^[Dw0.n_layers_D] ∧
    (∀ s m : Nat, 1 ≤ m → s = 2 ^ Dw0.n_layers_D * m → (downStep 3)^[Dw0.n_layers_D] s = m) :=
  c4_downsampling 1 2 1 1 1 3 0 256 Dw0 rfl (by decide) ⟨1, 1, [4]⟩ (by decide)

/-- C4 counterexample: the claim's "input spatial shape divided by
`2^(effective layer count)` with integer floor" fails on odd extents: with
kernel size 3 (padding 1), one downsampling layer maps spatial extent 3 to 2,
whereas `3 / 2^1 = 1`. -/
theorem c4_counterexample :
    terminalsOf (mkMultiScaleDiscriminator 1 1 2 8 3 1 3 256) ⟨1, 3, [3, 3]⟩ =
      some [⟨1, 1, [2, 2]⟩] ∧
    terminalsOf (mkMultiScaleDiscriminator 1 1 2 8 3 1 3 256) ⟨1, 3, [3, 3]⟩ ≠
      some [⟨1, 1, [3 / 2 ^ 1, 3 / 2 ^ 1]⟩] := by
  decide

/-- C1 (spec-modelled sequence mode): with an explicit per-scale layer-count
sequence whose length differs from `num_D`, construction fails immediately
with the count-mismatch error carrying the expected and actual counts, before
any sub-discriminator is built; and whenever it succeeds, sub-discriminator
`i` uses the `i`-th entry of the sequence as its effective layer count. -/
theorem c1_sequence_layer_counts
    (num_D : Nat) (layerCounts : List Nat)
    (spatial_dims n_channels in_channels out_channels kernel_size minimum_size_im : Nat) :
    (layerCounts.length ≠ num_D →
      mkMultiScaleDiscriminatorSeq num_D layerCounts spatial_dims n_channels in_channels out_channels kernel_size minimum_size_im =
        .error (.layerCountMismatch num_D layerCounts.length)) ∧
    (∀ M, mkMultiScaleDiscriminatorSeq num_D layerCounts spatial_dims n_channels in_channels out_channels kernel_size minimum_size_im = .ok M →
      ∀ i, i < num_D → (M.discs[i]?).map NLayerDiscriminator.n_layers_D = layerCounts[i]?) := by
  constructor
  · intro hne
    simp [mkMultiScaleDiscriminatorSeq, hne]
  · intro M hM i hi
    by_cases hlen : layerCounts.length = num_D
    · simp only [mkMultiScaleDiscriminatorSeq, if_pos hlen] at hM
      cases hds : mkSubDiscsSeq (fun n i => mkNLayerDiscriminatorCore n i spatial_dims n_channels in_channels out_channels kernel_size ((kernel_size - 1) / 2) minimum_size_im) layerCounts 0 with
      | error e => rw [hds] at hM; exact absurd hM (by simp)
      | ok ds =>
        rw [hds] at hM
        simp only [Except.ok.injEq] at hM
        subst hM
        obtain ⟨hdlen, hget⟩ := mkSubDiscsSeq_ok _ layerCounts 0 ds hds
        obtain ⟨n, d, hc, hd, hcore⟩ := hget i (by omega)
        obtain ⟨-, hD⟩ := mkNLayerDiscriminatorCore_ok _ _ _ _ _ _ _ _ _ _ hcore
        rw [hc]
        show (ds[i]?).map NLayerDiscriminator.n_layers_D = some n
        rw [hd, hD]
        rfl
    · simp [mkMultiScaleDiscriminatorSeq, hlen] at hM

/-- Witness for C1: the mismatch case `num_D=5` with counts `[3,4,5]` (the
repository test `TEST_MISMATCHED_NUM_LAYERS`) and, on success at `num_D=3`,
scale 1 using entry 4. -/
theorem c1_witness :
    mkMultiScaleDiscriminatorSeq 5 [3, 4, 5] 2 8 3 1 3 256 = .error (.layerCountMismatch 5 3) ∧
    (MwSeq.discs[1]?).map NLayerDiscriminator.n_layers_D = [3, 4, 5][1]? :=
  ⟨(c1_sequence_layer_counts 5 [3, 4, 5] 2 8 3 1 3 256).1 (by decide),
   (c1_sequence_layer_counts 3 [3, 4, 5] 2 8 3 1 3 256).2 MwSeq rfl 1 (by decide)⟩

/-- C2 counterexample: for `num_D=2`, base layer count 3, uniform mode,
`minimum_size_im=256` and input `(1,3,256,512)`, the source's forward with
intermediate features requested produces feature sequences of lengths
`[3, 6]` — one entry per downsampling layer, terminal excluded — not the
claimed `[4, 7]`. -/
theorem c2_counterexample :
    featureLengthsOf (mkMultiScaleDiscriminator 2 3 2 8 3 1 3 256) ⟨1, 3, [256, 512]⟩ =
      some [3, 6] ∧
    featureLengthsOf (mkMultiScaleDiscriminator 2 3 2 8 3 1 3 256) ⟨1, 3, [256, 512]⟩ ≠
      some [4, 7] := by
  decide

/-- C2 (amended): for `num_D=2`, base layer count 3, uniform mode,
`minimum_size_im=256` and input `(1,3,256,512)`: the effective layer counts
are `[3, 6]`, the terminal outputs have shapes `(1,1,32,64)` and `(1,1,4,8)`,
and the intermediate-feature sequences have lengths `[3, 6]`. -/
theorem c2_amended_example :
    effCountsOf (mkMultiScaleDiscriminator 2 3 2 8 3 1 3 256) = some [3, 6] ∧
    terminalsOf (mkMultiScaleDiscriminator 2 3 2 8 3 1 3 256) ⟨1, 3, [256, 512]⟩ =
      some [⟨1, 1, [32, 64]⟩, ⟨1, 1, [4, 8]⟩] ∧
    featureLengthsOf (mkMultiScaleDiscriminator 2 3 2 8 3 1 3 256) ⟨1, 3, [256, 512]⟩ =
      some [3, 6] := by
  decide

end PatchGAN
